import Mathlib

/-!
Verification of the etlx core: the command/type-coercion engine
(driver/types.go) and the batched pipeline orchestrator (Transaction).

Go runtime values held in an `interface\x7b\x7d` are embedded as the
inductive `GoValue`; machine floating point (`float64`) is embedded as `ℚ`
(every numeric literal appearing in the claims is exactly representable,
and the arithmetic the code performs on them is exact); `time.Time` is
embedded as the opaque wrapper `GoTime`.  Fallible Go functions returning
`(T, error)` are embedded as `Except String T`; Go code that can panic
(out-of-range indexing, nil-pointer dereference) is embedded with the
outcome type `GoOutcome` whose `panics` constructor marks a run-time panic.
-/

deriving instance DecidableEq for Except

namespace Etlx

/-- A parsed JSON document.  `Command.UnmarshalJSON` receives raw bytes and
immediately parses them (via ghodss/yaml, which converts to JSON and calls
`encoding/json`); we embed the function over the parsed tree.  JSON numbers
are embedded exactly as `ℚ` (Go decodes them to `float64`). -/
inductive Json where
  | null
  | bool (b : Bool)
  | num (q : ℚ)
  | str (s : String)
  | arr (elems : List Json)
  | obj (fields : List (String × Json))

/-- Opaque embedding of `time.Time`: either a value built by `time.Unix(n, 0)`
or an abstract parsed value identified by a tag (produced by the
`time.ParseInLocation` oracle, see `Ext`). -/
inductive GoTime where
  | unix (n : ℤ)
  | parsed (tag : ℕ)
deriving DecidableEq

mutual
/-- Embedding of the Go dynamic values (`interface\x7b\x7d`) that flow through
driver/types.go.  One constructor per runtime kind the code inspects. -/
inductive GoValue where
  | vnull
  | vbool (b : Bool)
  | vint (n : ℤ)
  | vint64 (n : ℤ)
  | vfloat64 (q : ℚ)
  | vfloat32 (q : ℚ)
  | vstring (s : String)
  | vbytes (s : String)
  | vtime (t : GoTime)
  | vmap (entries : List (String × GoValue))
  | varray (elems : List GoValue)
  | vmaparray (ms : List (List (String × GoValue)))
  | vgeometry (gtype : String) (coords : GoValue)
  | vregex (pattern options : String)
  | vcommands (cs : List Command)

/-- Embedding of `driver.Command`: `\x7bName, Type, Value, Arg\x7d`.
`Arg` is a `*json.RawMessage`; we embed it as the JSON subtree (or `none`
for a nil pointer). -/
inductive Command where
  | mk (name : String) (type : String) (value : GoValue) (arg : Option Json)
end

def Command.name : Command → String
  | .mk n _ _ _ => n

def Command.type : Command → String
  | .mk _ t _ _ => t

def Command.value : Command → GoValue
  | .mk _ _ v _ => v

/-- Outcome of running a piece of Go code: normal result, returned `error`,
or run-time panic. -/
inductive GoOutcome (α : Type) where
  | ok (a : α)
  | error (msg : String)
  | panics
deriving DecidableEq

/-- Go map lookup (`m[k]` with the `, ok` form) on the association-list
embedding of `map[string]interface\x7b\x7d`. -/
def mapLookup : List (String × GoValue) → String → Option GoValue
  | [], _ => none
  | (k, v) :: rest, key => if k = key then some v else mapLookup rest key

/-- Go map assignment `m[k] = v`: overwrite the existing entry or add one. -/
def mapInsert : List (String × GoValue) → String → GoValue → List (String × GoValue)
  | [], key, val => [(key, val)]
  | (k, v) :: rest, key, val =>
      if k = key then (key, val) :: rest else (k, v) :: mapInsert rest key val

/-- Keys currently present in the embedded Go map. -/
def mapKeys (m : List (String × GoValue)) : List String := m.map Prod.fst

/-- The loop body of `ArrayToMap`: `for index, key := range columns \x7b
result[key] = contents[index] \x7d`.  Indexing `contents[index]` out of
range is a Go panic, embedded as `GoOutcome.panics`. -/
def arrayToMapLoop : List String → ℕ → List GoValue → List (String × GoValue) →
    GoOutcome (List (String × GoValue))
  | [], _, _, acc => .ok acc
  | key :: rest, idx, contents, acc =>
      match contents.get? idx with
      | none => .panics
      | some v => arrayToMapLoop rest (idx + 1) contents (mapInsert acc key v)

/-- `driver.ArrayToMap` (types.go): guard on empty columns, guard on
`len(columns) < len(contents)`, then the write loop. -/
def ArrayToMap (columns : List String) (contents : List GoValue) :
    GoOutcome (List (String × GoValue)) :=
  if columns.length = 0 then
    .error "Should provide a columns to define the return sequence!"
  else if columns.length < contents.length then
    .error "length of columns should >= length of contents!"
  else
    arrayToMapLoop columns 0 contents []

/-- `driver.MapToArray` (types.go): guard on empty columns only (the length
guard is commented out in the source); missing keys yield `nil`. -/
def MapToArray (columns : List String) (contents : List (String × GoValue)) :
    GoOutcome (List GoValue) :=
  if columns.length = 0 then
    .error "Should provide a columns to define the return sequence!"
  else
    .ok (columns.map (fun key => (mapLookup contents key).getD .vnull))

/-! ### String utilities

`strings.Split`, `strings.IndexAny`, `strings.Replace` and the three
date regexes of `formatTime` are embedded below.  `regexp.MustCompile(p).MatchString`
for the patterns `[0-9]+X[0-9]+X[0-9]` (X a literal separator) is an
anywhere-substring search; because the separator is never a digit, a match
starting at a position exists iff the maximal digit run from that position
is non-empty and is followed by the separator, another non-empty maximal
digit run, the separator again, and one more digit. -/

/-- Split a character list into its maximal leading digit run and the rest. -/
def takeDigits : List Char → List Char × List Char
  | [] => ([], [])
  | c :: rest =>
      if c.isDigit then
        let (run, tail) := takeDigits rest
        (c :: run, tail)
      else ([], c :: rest)

/-- Does `[0-9]+sep[0-9]+sep[0-9]` match at the head of the list? -/
def matchDatePattern (sep : Char) (cs : List Char) : Bool :=
  match takeDigits cs with
  | ([], _) => false
  | (_ :: _, rest) =>
    match rest with
    | [] => false
    | c :: rest2 =>
      if c = sep then
        match takeDigits rest2 with
        | ([], _) => false
        | (_ :: _, rest3) =>
          match rest3 with
          | [] => false
          | c2 :: rest4 =>
            if c2 = sep then
              match rest4 with
              | [] => false
              | d :: _ => d.isDigit
            else false
      else false

/-- `regexp.MustCompile("[0-9]+sep[0-9]+sep[0-9]").MatchString`: the pattern
matches somewhere in the string. -/
def containsDatePattern (sep : Char) : List Char → Bool
  | [] => false
  | c :: rest => matchDatePattern sep (c :: rest) || containsDatePattern sep rest

/-- Worker for `strings.Split`: `acc` is the current token, reversed. -/
def splitGoAux (sep : List Char) : List Char → List Char → List (List Char)
  | [], acc => [acc.reverse]
  | c :: rest, acc =>
      if _h : 1 ≤ sep.length ∧ sep.isPrefixOf (c :: rest) then
        acc.reverse :: splitGoAux sep (List.drop sep.length (c :: rest)) []
      else
        splitGoAux sep rest (c :: acc)
termination_by cs _ => cs.length
decreasing_by
  · simp only [List.length_drop, List.length_cons]; omega
  · simp

/-- `strings.Split(s, sep)` for non-empty `sep` (every call site uses
`"-"`, `"/"`, `"."` or `"::"`). -/
def goSplit (s sep : String) : List String :=
  (splitGoAux sep.data s.data []).map fun cs => String.mk cs

/-- Zero-pad a single-digit component, as the `formatTime` loop does. -/
def pad2 (s : String) : String := if s.length = 1 then "0" ++ s else s

/-- `driver.formatTime` (types.go): normalize `-`/`/`/`.`-separated dates,
zero-padding one-digit month/day components and rewriting `.` to `-`.
The `format` parameter is unused, exactly as in the source. -/
def formatTime (val : String) (_format : String) : Except String String :=
  let sepO : Option Char :=
    if containsDatePattern '-' val.data then some '-'
    else if containsDatePattern '/' val.data then some '/'
    else if containsDatePattern '.' val.data then some '.'
    else none
  match sepO with
  | none => .ok val
  | some sep =>
    match goSplit val (String.mk [sep]) with
    | [i0, i1, i2] =>
      let sepS := if sep = '.' then "-" else String.mk [sep]
      .ok (i0 ++ sepS ++ pad2 i1 ++ sepS ++ pad2 i2)
    | _ => .error ("wrong time format:" ++ val)

/-- `driver.splitTimeValueLayout` (types.go): split on `"::"`, returning
the first segment and the second (or `""` when there is no second). -/
def splitTimeValueLayout (input : String) : String × String :=
  match goSplit input "::" with
  | v :: l :: _ => (v, l)
  | [v] => (v, "")
  | [] => ("", "")

/-! ### Number parsing

`strconv.ParseFloat(s, 64)` and `strconv.ParseInt(s, 10, 64)` are Go
standard-library collaborators; they are embedded over `ℚ`/`ℤ` restricted
to finite decimal literals (hexadecimal floats, `Inf`/`NaN` tokens,
digit-separating underscores and 64-bit overflow saturation are outside
every input the claims concern). -/

/-- Consume an optional leading sign; `true` means negative. -/
def parseSign : List Char → Bool × List Char
  | '+' :: rest => (false, rest)
  | '-' :: rest => (true, rest)
  | cs => (false, cs)

/-- Decimal value of a digit list. -/
def digitsToNat (ds : List Char) : ℕ :=
  ds.foldl (fun acc c => 10 * acc + (c.toNat - '0'.toNat)) 0

/-- `strconv.ParseInt(s, 10, 64)`: optional sign then one or more digits
and nothing else. -/
def goParseInt (s : String) : Option ℤ :=
  let (neg, rest) := parseSign s.data
  match takeDigits rest with
  | ([], _) => none
  | (ds, []) => some (if neg then -(digitsToNat ds : ℤ) else (digitsToNat ds : ℤ))
  | (_, _ :: _) => none

/-- `10^e` over `ℚ` (`math.Pow10`, embedded exactly). -/
def qpow10 (e : ℤ) : ℚ := (10 : ℚ) ^ e

/-- Exponent suffix of a Go float literal: empty, or `(e|E)[sign]digits`. -/
def parseExpPart (mant : ℚ) : List Char → Option ℚ
  | [] => some mant
  | c :: rest =>
      if c = 'e' ∨ c = 'E' then
        let (eneg, r1) := parseSign rest
        match takeDigits r1 with
        | ([], _) => none
        | (ds, []) =>
            let e : ℤ := if eneg then -(digitsToNat ds : ℤ) else (digitsToNat ds : ℤ)
            some (mant * qpow10 e)
        | (_, _ :: _) => none
      else none

/-- `strconv.ParseFloat(s, 64)` on finite decimal literals:
`[sign] (digits [. digits] | digits . | . digits) [(e|E) [sign] digits]`. -/
def goParseFloat (s : String) : Option ℚ :=
  let (neg, r1) := parseSign s.data
  let (ip, r2) := takeDigits r1
  let signed : ℚ → ℚ := fun q => if neg then -q else q
  match r2 with
  | '.' :: r3 =>
      let (fp, r4) := takeDigits r3
      if ip.isEmpty && fp.isEmpty then none
      else parseExpPart (signed (mkRat (digitsToNat (ip ++ fp)) (10 ^ fp.length))) r4
  | _ =>
      if ip.isEmpty then none
      else parseExpPart (signed (digitsToNat ip : ℚ)) r2

/-- `strings.Replace(str, ",", "", -1)`. -/
def stripCommas (s : String) : String := String.mk (s.data.filter fun c => c ≠ ',')

/-- `driver.ParseFloat` (types.go): try `strconv.ParseFloat`; on failure
strip commas, and if an `e`/`E` is present split mantissa and exponent and
reconstruct `mantissa * 10^exponent`. -/
def ParseFloat (str : String) : Except String ℚ :=
  match goParseFloat str with
  | some v => .ok v
  | none =>
    let str2 := stripCommas str
    match str2.data.findIdx? fun c => c = 'e' || c = 'E' with
    | none =>
      match goParseFloat str2 with
      | some v => .ok v
      | none => .error "invalid float syntax"
    | some pos =>
      match goParseFloat (String.mk (str2.data.take pos)) with
      | none => .error "invalid base syntax"
      | some baseVal =>
        match goParseInt (String.mk (str2.data.drop (pos + 1))) with
        | none => .error "invalid exponent syntax"
        | some expVal => .ok (baseVal * qpow10 expVal)

/-- The Go conversion `int64(f)`: truncation toward zero, computably. -/
def truncQ (q : ℚ) : ℤ :=
  if 0 ≤ q.num then ((q.num.toNat / q.den : ℕ) : ℤ)
  else -(((-q.num).toNat / q.den : ℕ) : ℤ)

/-! ### Standard-library collaborators

`time.ParseInLocation`, `Geometry` JSON decoding, `json.Unmarshal` of an
embedded string payload, `json.Marshal`, `strconv.FormatFloat` and
`time.Time.String` are external to the repository; they are embedded as
oracle fields of `Ext`, and every theorem about code that calls them is
universally quantified over the oracle. -/
structure Ext where
  parseInLocation : String → String → Option GoTime
  parseGeometry : String → Option (String × GoValue)
  parseJsonStr : String → Option Json
  marshalJson : GoValue → Except String String
  formatFloat64 : ℚ → String
  formatFloat32 : ℚ → String
  timeToString : GoTime → String

mutual
/-- Decoding a parsed JSON value into a Go `interface\x7b\x7d`
(`json.Unmarshal` into an empty interface): numbers become `float64`,
objects become `map[string]interface\x7b\x7d`, arrays become
`[]interface\x7b\x7d`. -/
def jsonToGo : Json → GoValue
  | .null => .vnull
  | .bool b => .vbool b
  | .num q => .vfloat64 q
  | .str s => .vstring s
  | .arr es => .varray (jsonToGoList es)
  | .obj fs => .vmap (jsonToGoObj fs)

def jsonToGoList : List Json → List GoValue
  | [] => []
  | j :: rest => jsonToGo j :: jsonToGoList rest

def jsonToGoObj : List (String × Json) → List (String × GoValue)
  | [] => []
  | kv :: rest => (kv.1, jsonToGo kv.2) :: jsonToGoObj rest
end

mutual
/-- Stand-in for the raw bytes of a `json.RawMessage` subtree: since the
embedding works on parsed trees, the retained `raw` payload is the
canonical rendering of the subtree (its exact spelling is never asserted
by any theorem; only its runtime kind — string — matters). -/
def renderJson : Json → String
  | .null => "null"
  | .bool b => if b then "true" else "false"
  | .num q => if q.den = 1 then toString q.num else toString q
  | .str s => "\"" ++ s ++ "\""
  | .arr es => "[" ++ String.intercalate "," (renderJsonList es) ++ "]"
  | .obj fs => "\x7b" ++ String.intercalate "," (renderJsonObj fs) ++ "\x7d"

def renderJsonList : List Json → List String
  | [] => []
  | j :: rest => renderJson j :: renderJsonList rest

def renderJsonObj : List (String × Json) → List String
  | [] => []
  | kv :: rest => ("\"" ++ kv.1 ++ "\":" ++ renderJson kv.2) :: renderJsonObj rest
end

/-- `strings.ToLower` (ASCII case folding; the CJK tokens are unaffected). -/
def toLowerGo (s : String) : String := s.map Char.toLower

/-- `driver.StringFromInterface` (types.go). -/
def StringFromInterface (ext : Ext) : GoValue → Except String String
  | .vnull => .error "Interface could not be converted to String!"
  | .vstring s => .ok s
  | .vint n => .ok (toString n)
  | .vint64 n => .ok (toString n)
  | .vfloat64 q => .ok (ext.formatFloat64 q)
  | .vfloat32 q => .ok (ext.formatFloat32 q)
  | .vbytes s => .ok s
  | .vtime t => .ok (ext.timeToString t)
  | _ => .error "Interface could not be converted to String!"

/-- `driver.BoolFromInterface` (types.go): booleans plus a closed set of
case-insensitive string tokens. -/
def BoolFromInterface : GoValue → Except String Bool
  | .vnull => .error "Interface could not be converted to Bool!"
  | .vbool b => .ok b
  | .vstring s =>
      let l := toLowerGo s
      if l = "1" ∨ l = "true" ∨ l = "t" ∨ l = "y" ∨ l = "yes" ∨ l = "是" then .ok true
      else if l = "0" ∨ l = "false" ∨ l = "f" ∨ l = "n" ∨ l = "no" ∨ l = "否" ∨ l = "不是" then
        .ok false
      else .error "Interface could not be converted to Bool!"
  | _ => .error "Interface could not be converted to Bool!"

/-- `driver.IntFromInterface` (types.go): floats are shifted by ±0.5 and
converted by Go `int64(...)` truncation; strings go through `ParseFloat`
and are then truncated. -/
def IntFromInterface : GoValue → Except String ℤ
  | .vnull => .error "Interface could not be converted to Int!"
  | .vfloat64 q => .ok (if 0 ≤ q then truncQ (q + 1/2) else truncQ (q - 1/2))
  | .vint64 n => .ok n
  | .vint n => .ok n
  | .vstring s =>
      match ParseFloat s with
      | .ok q => .ok (truncQ q)
      | .error _ => .error "Interface could not be converted to Int!"
  | _ => .error "Interface could not be converted to Int!"

/-- `driver.FloatFromInterface` (types.go). -/
def FloatFromInterface : GoValue → Except String ℚ
  | .vnull => .error "Interface Could not be converted to Float!"
  | .vfloat64 q => .ok q
  | .vfloat32 q => .ok q
  | .vint n => .ok (n : ℚ)
  | .vint64 n => .ok (n : ℚ)
  | .vstring s =>
      match ParseFloat s with
      | .ok q => .ok q
      | .error _ => .error "Interface Could not be converted to Float!"
  | _ => .error "Interface Could not be converted to Float!"

/-- `driver.MapFromInterface` (types.go): maps pass through, strings are
parsed as a JSON object. -/
def MapFromInterface (ext : Ext) : GoValue → Except String (List (String × GoValue))
  | .vnull => .error "Interface could not be converted to map!"
  | .vmap m => .ok m
  | .vstring s =>
      match ext.parseJsonStr s with
      | some (.obj fs) => .ok (jsonToGoObj fs)
      | some .null => .ok []
      | some _ => .error "cannot unmarshal into map"
      | none => .error "invalid json"
  | _ => .error "Interface could not be converted to map!"

/-- `driver.ArrayFromInterface` (types.go).  The `*[]interface\x7b\x7d`
pointer case of the source is unrepresentable in the embedded value
universe (no decoded value is a pointer), so only the slice case appears. -/
def ArrayFromInterface : GoValue → Except String (List GoValue)
  | .vnull => .error "Interface could not be converted to array!"
  | .varray es => .ok es
  | _ => .error "Interface could not be converted to array!"

/-- `driver.GeometryFromInterface` (types.go). -/
def GeometryFromInterface (ext : Ext) : GoValue → Except String (String × GoValue)
  | .vnull => .error "Interface could not be converted to Geometry!"
  | .vgeometry t c => .ok (t, c)
  | .vstring s =>
      match ext.parseGeometry s with
      | some g => .ok g
      | none => .error "invalid geometry json"
  | .vbytes s =>
      match ext.parseGeometry s with
      | some g => .ok g
      | none => .error "invalid geometry json"
  | _ => .error "Interface could not be converted to Geometry!"

/-- `driver.BsonRegExFromInterface` (types.go).  Note: the source reads
`reg[0]` for both the pattern and the option in the two-element case; the
embedding reproduces that. -/
def BsonRegExFromInterface (ext : Ext) : GoValue → Except String (String × String)
  | .vnull => .error "Interface could not be converted to bson.RegEx!"
  | .vregex p o => .ok (p, o)
  | .varray reg =>
      match reg with
      | [] => .error "should have at least a pattern"
      | [r0] =>
          match StringFromInterface ext r0 with
          | .ok p => .ok (p, "")
          | .error _ => .error "pattern to bson.RegEx should be a string!"
      | [r0, _] =>
          match StringFromInterface ext r0 with
          | .ok p =>
              match StringFromInterface ext r0 with
              | .ok o => .ok (p, o)
              | .error _ => .error "option to bson.RegEx should be a string!"
          | .error _ => .error "pattern to bson.RegEx should be a string!"
      | _ => .error "should have at most a pattern and an option"
  | _ => .error "Interface could not be converted to bson.RegEx!"

/-- `driver.TimeFromInterface` (types.go): native times and Unix `int`
seconds pass through; strings are split on `"::"` (an embedded non-empty
layout replaces the caller's), otherwise normalized by `formatTime` and
parsed with `time.ParseInLocation` (the `Ext` oracle). -/
def TimeFromInterface (ext : Ext) (val : GoValue) (layout : String) : Except String GoTime :=
  match val with
  | .vtime t => .ok t
  | .vint n => .ok (.unix n)
  | .vstring s =>
      let (timeStr, embedLayout) := splitTimeValueLayout s
      if embedLayout.length ≤ 0 then
        match formatTime timeStr layout with
        | .error _ => .error "Interface could not be converted to Time!"
        | .ok ts =>
            match ext.parseInLocation layout ts with
            | some t => .ok t
            | none => .error "Interface could not be converted to Time!"
      else
        match ext.parseInLocation embedLayout timeStr with
        | some t => .ok t
        | none => .error "Interface could not be converted to Time!"
  | _ => .error "Interface could not be converted to Time!"

/-- `driver.StrToType` (types.go): dispatch a type tag to its coercion.
The variadic `layout ...string` parameter is embedded as an `Option`. -/
def StrToType (ext : Ext) (typeStr : String) (src : GoValue) (layout : Option String) :
    Except String GoValue :=
  if typeStr = "int" then (IntFromInterface src).map .vint64
  else if typeStr = "string" then (StringFromInterface ext src).map .vstring
  else if typeStr = "float" then (FloatFromInterface src).map .vfloat64
  else if typeStr = "list" ∨ typeStr = "array" then (ArrayFromInterface src).map .varray
  else if typeStr = "map" then (MapFromInterface ext src).map .vmap
  else if typeStr = "time" then
    (TimeFromInterface ext src (layout.getD "2006-01-02")).map .vtime
  else if typeStr = "geometry" then
    (GeometryFromInterface ext src).map fun g => .vgeometry g.1 g.2
  else if typeStr = "bool" then (BoolFromInterface src).map .vbool
  else if typeStr = "bson.RegEx" then
    (BsonRegExFromInterface ext src).map fun r => .vregex r.1 r.2
  else if typeStr = "json" then (ext.marshalJson src).map .vbytes
  else if typeStr = "jsonarray" then (ext.marshalJson src).map .vbytes
  else .error ("The type(" ++ typeStr ++ ") is not supported right now")

/-! ### Command.UnmarshalJSON

`Command.UnmarshalJSON` first decodes the object into the temporary
`\x7bname, type, value, arg\x7d` struct (`value` and `arg` as
`*json.RawMessage`, left nil when the field is absent or JSON null), then
dispatches on the type tag; dereferencing a nil `*json.RawMessage`
(`*tmp.Items`) is a run-time panic. -/

/-- Struct-field decoding for a JSON object: the last binding of a key
wins, as in `encoding/json`. -/
def getField (fs : List (String × Json)) (key : String) : Option Json :=
  fs.foldl (fun acc kv => if kv.1 = key then some kv.2 else acc) none

/-- Decode a `string`-typed struct field: absent and null yield the zero
value, a JSON string yields itself, anything else is a decode error. -/
def getStringField (fs : List (String × Json)) (key : String) : Except String String :=
  match getField fs key with
  | none => .ok ""
  | some .null => .ok ""
  | some (.str s) => .ok s
  | some _ => .error ("cannot unmarshal value of field " ++ key ++ " into string")

/-- Decode a `*json.RawMessage` struct field: absent and null both leave
the pointer nil. -/
def getRawField (fs : List (String × Json)) (key : String) : Option Json :=
  match getField fs key with
  | some .null => none
  | x => x

theorem getField_mem (key : String) :
    ∀ (fs : List (String × Json)) (acc : Option Json) (v : Json),
      fs.foldl (fun acc kv => if kv.1 = key then some kv.2 else acc) acc = some v →
      acc = some v ∨ ∃ k, (k, v) ∈ fs := by
  intro fs
  induction fs with
  | nil => intro acc v h; exact Or.inl h
  | cons kv rest ih =>
    rcases kv with ⟨k0, v0⟩
    intro acc v h
    simp only [List.foldl_cons] at h
    rcases ih _ v h with h2 | ⟨k, hk⟩
    · split at h2
      · cases h2
        exact Or.inr ⟨k0, List.mem_cons_self _ _⟩
      · exact Or.inl h2
    · exact Or.inr ⟨k, List.mem_cons_of_mem _ hk⟩

theorem getField_sizeOf {fs : List (String × Json)} {key : String} {v : Json}
    (h : getField fs key = some v) : sizeOf v < sizeOf fs := by
  rcases getField_mem key fs none v h with h2 | ⟨k, hk⟩
  · exact absurd h2 (by simp)
  · have h3 := List.sizeOf_lt_of_mem hk
    have h4 : sizeOf (k, v) = 1 + sizeOf k + sizeOf v := rfl
    omega

theorem getRawField_sizeOf {fs : List (String × Json)} {key : String} {v : Json}
    (h : getRawField fs key = some v) : sizeOf v < sizeOf fs := by
  have h3 : getField fs key = some v := by
    unfold getRawField at h
    rcases h2 : getField fs key with _ | w
    · rw [h2] at h; exact absurd h (by simp)
    · rw [h2] at h
      cases w <;> simp_all
  exact getField_sizeOf h3

/-- `json.Unmarshal` of one element of a `[]map[string]interface\x7b\x7d`
value (the `jsonarray` branch): null leaves a nil map, an object decodes,
anything else is a decode error. -/
def unmarshalMapEntry : Json → Except String (List (String × GoValue))
  | .null => .ok []
  | .obj fs => .ok (jsonToGoObj fs)
  | _ => .error "cannot unmarshal element into map"

/-- Elementwise decoding for the `jsonarray` branch. -/
def unmarshalMapList : List Json → Except String (List (List (String × GoValue)))
  | [] => .ok []
  | j :: rest =>
      match unmarshalMapEntry j with
      | .error e => .error e
      | .ok m =>
          match unmarshalMapList rest with
          | .error e => .error e
          | .ok ms => .ok (m :: ms)

mutual
/-- `Command.UnmarshalJSON` (types.go) over the parsed document.  A JSON
null decodes to the zero `Command` (`json.Unmarshal` leaves the struct
untouched); a non-object is a decode error.  For an object the branches
follow the source in order: `complex`/`single` (nested commands), `json`,
`jsonarray`, `raw`, then the generic `StrToType` branch guarded by a
non-empty tag and a non-nil value pointer. -/
def unmarshalCommand (ext : Ext) : Json → GoOutcome Command
  | .null => .ok (.mk "" "" .vnull none)
  | .obj fs =>
    (match getStringField fs "name", getStringField fs "type" with
     | .error e, _ => .error e
     | .ok _, .error e => .error e
     | .ok name, .ok itemType =>
       let arg := getRawField fs "arg"
       if itemType = "complex" ∨ itemType = "single" then
         match hv : getRawField fs "value" with
         | none => .panics
         | some (.arr js) =>
           match unmarshalCommandList ext js with
           | .ok cs => .ok (.mk name itemType (.vcommands cs) arg)
           | .error e => .error e
           | .panics => .panics
         | some _ => .error "cannot unmarshal value into []Command"
       else if itemType = "json" then
         match getRawField fs "value" with
         | none => .panics
         | some (.obj fs2) => .ok (.mk name itemType (.vmap (jsonToGoObj fs2)) arg)
         | some _ => .error "cannot unmarshal value into map"
       else if itemType = "jsonarray" then
         match getRawField fs "value" with
         | none => .panics
         | some (.arr js) =>
           match unmarshalMapList js with
           | .ok ms => .ok (.mk name itemType (.vmaparray ms) arg)
           | .error e => .error e
         | some _ => .error "cannot unmarshal value into []map"
       else if itemType = "raw" then
         match getRawField fs "value" with
         | none => .panics
         | some iv => .ok (.mk name itemType (.vstring (renderJson iv)) arg)
       else if itemType ≠ "" then
         match getRawField fs "value" with
         | none => .ok (.mk name itemType .vnull arg)
         | some iv =>
           match StrToType ext itemType (jsonToGo iv) none with
           | .ok v => .ok (.mk name itemType v arg)
           | .error e => .error e
       else .ok (.mk name itemType .vnull arg))
  | _ => .error "cannot unmarshal into Command"
termination_by j => sizeOf j
decreasing_by
  have h1 := getRawField_sizeOf hv
  simp only [Json.obj.sizeOf_spec, Json.arr.sizeOf_spec] at h1 ⊢
  omega

/-- `json.Unmarshal` into `[]Command`: decode elements in order, stopping
at the first error (a panic inside an element propagates). -/
def unmarshalCommandList (ext : Ext) : List Json → GoOutcome (List Command)
  | [] => .ok []
  | j :: rest =>
    match unmarshalCommand ext j with
    | .error e => .error e
    | .panics => .panics
    | .ok c =>
      match unmarshalCommandList ext rest with
      | .error e => .error e
      | .panics => .panics
      | .ok cs => .ok (c :: cs)
termination_by js => sizeOf js
decreasing_by
  · simp only [List.cons.sizeOf_spec]; omega
  · simp only [List.cons.sizeOf_spec]; omega
end

/-! ### Batched pipeline orchestrator (Transaction, part_002)

The batched branch of `Transaction.Exec` is a sequential loop: call
`extract` (whose `Command`/`Query` run against the extract handle's
current batch settings), break on error, dispatch the batch's
transform+load to a goroutine whose returned error is discarded, then call
`FlashBatch` (advance the cursor under the mutex and call
`SetBatch(limit, offset)` on the extract handle), and finally
`wg.Wait()` and `return nil`.  The embedding drives the loop by the number
of extract calls that succeed before the driver reports end-of-data, and
records the trace the claims talk about: the handle's batch settings
observed by each extract call, every `SetBatch` invocation, and the error
each worker locally observed. -/

/-- `driver.Batch` (types.go): the batch settings held by an extract
handle; its Go zero value is `⟨false, 0, 0⟩`. -/
structure Batch where
  flag : Bool
  limit : ℤ
  offset : ℤ
deriving DecidableEq

/-- `driver.Batch.SetBatch` (types.go). -/
def Batch.setBatch (_b : Batch) (limit offset : ℤ) : Batch :=
  { flag := true, limit := limit, offset := offset }

/-- The Transaction's mutex-guarded cursor fields. -/
structure Cursor where
  batchSize : ℤ
  limit : ℤ
  offset : ℤ
deriving DecidableEq

/-- Cursor update of `Transaction.FlashBatch` (part_002): if `limit` is 0
take the batch size, otherwise advance `offset` by `limit`; `limit` is
reloaded from `batchSize` either way. -/
def flashCursor (c : Cursor) : Cursor :=
  if c.limit = 0 then { c with limit := c.batchSize }
  else { c with offset := c.offset + c.limit, limit := c.batchSize }

/-- Trace of one batched `Exec` run. -/
structure BatchedTrace where
  observed : List Batch
  setBatchCalls : List (ℤ × ℤ)
  workerErrors : List (Option String)
  ret : Option String
deriving DecidableEq

/-- The batched loop of `Transaction.Exec` (part_002).  `remaining` is how
many more extract calls the driver will satisfy before returning an error
(end-of-data); `k` numbers the batches; `workerErr k` is the error the
worker processing batch `k` gets from `execTransLoad` (observed only
inside that goroutine). -/
def execBatchedLoop (workerErr : ℕ → Option String) :
    ℕ → ℕ → Cursor → Batch → BatchedTrace → BatchedTrace
  | remaining, k, cursor, hb, tr =>
    let tr1 := { tr with observed := tr.observed ++ [hb] }
    match remaining with
    | 0 => tr1
    | n + 1 =>
      let tr2 := { tr1 with workerErrors := tr1.workerErrors ++ [workerErr k] }
      let c2 := flashCursor cursor
      let hb2 := hb.setBatch c2.limit c2.offset
      execBatchedLoop workerErr n (k + 1) c2 hb2
        { tr2 with setBatchCalls := tr2.setBatchCalls ++ [(c2.limit, c2.offset)] }

/-- Batched `Transaction.Exec` after `Open(..., BatchEnable("enable", B))`:
the cursor starts at `limit = B, offset = 0`; the extract handle's batch
settings start at the Go zero value (no `SetBatch` has been issued); after
the loop the call waits for the workers and returns nil. -/
def ExecBatched (batchSize : ℤ) (succCount : ℕ) (workerErr : ℕ → Option String) :
    BatchedTrace :=
  let tr := execBatchedLoop workerErr succCount 0
    { batchSize := batchSize, limit := batchSize, offset := 0 }
    { flag := false, limit := 0, offset := 0 }
    { observed := [], setBatchCalls := [], workerErrors := [], ret := some "unset" }
  { tr with ret := none }

/-! ### Single-shot pipeline (Transaction, part_002, else branch) -/

/-- The behavior of the three opened handles during one single-shot
`Exec(extArgs, transArgs, loadArgs)` call: each field is the result of the
corresponding handler method on the fixed arguments and inputs of that
run (commands, row sets and result sets are abstracted to tokens). -/
structure SingleHandlers where
  extractCmd : Except String ℕ
  query : ℕ → Except String ℕ
  transformCmd : Except String ℕ
  transformExec : ℕ → ℕ → Except String ℕ
  loadCmd : Except String ℕ
  load : ℕ → ℕ → Option String

/-- The handler calls a single-shot run makes, in order. -/
inductive PhaseStep where
  | extractCmd
  | query
  | transformCmd
  | transformExec
  | loadCmd
  | load
deriving DecidableEq

/-- Single-shot `Transaction.Exec` (part_002, else branch): `extract`
(handler `Command` then `Query`), then `transform` (handler `Command` then
`Exec` on the extracted rows), then `load` (handler `Command` then `Load`
on the transformed results); each phase returns its first error and `Exec`
returns on the first failing phase.  The second component records which
handler calls were made. -/
def execSingle (h : SingleHandlers) : Option String × List PhaseStep :=
  match h.extractCmd with
  | .error e => (some e, [.extractCmd])
  | .ok cmd1 =>
    match h.query cmd1 with
    | .error e => (some e, [.extractCmd, .query])
    | .ok rows =>
      match h.transformCmd with
      | .error e => (some e, [.extractCmd, .query, .transformCmd])
      | .ok cmd2 =>
        match h.transformExec rows cmd2 with
        | .error e => (some e, [.extractCmd, .query, .transformCmd, .transformExec])
        | .ok results =>
          match h.loadCmd with
          | .error e => (some e, [.extractCmd, .query, .transformCmd, .transformExec, .loadCmd])
          | .ok cmd3 =>
            (h.load results cmd3,
             [.extractCmd, .query, .transformCmd, .transformExec, .loadCmd, .load])

/-! ### Transaction.Close (part_002) -/

/-- The close results of the three opened handles (`nil` or an error). -/
structure CloseHandles where
  extractCloseErr : Option String
  transformCloseErr : Option String
  loadCloseErr : Option String

/-- `Transaction.Close` (part_002): append the extract, transform and load
close results to an initially empty slice, unconditionally. -/
def TransactionClose (h : CloseHandles) : List (Option String) :=
  let errSlice : List (Option String) := []
  let errSlice := errSlice ++ [h.extractCloseErr]
  let errSlice := errSlice ++ [h.transformCloseErr]
  let errSlice := errSlice ++ [h.loadCloseErr]
  errSlice

/-! ## Theorems -/

/-- C9: `Transaction.Close()` always returns exactly three error slots —
one per handle, each possibly nil — and every slot carries its own
handle's close result no matter whether the earlier closes failed: no
close is skipped and no result is suppressed. -/
theorem close_always_collects_three_errors (h : CloseHandles) :
    TransactionClose h = [h.extractCloseErr, h.transformCloseErr, h.loadCloseErr] ∧
    (TransactionClose h).length = 3 :=
  ⟨rfl, rfl⟩

/-- C10: evaluating `ArrayToMap` at a contents list strictly shorter than
the columns list: both guards pass, and the write loop indexes the
contents out of range — a run-time panic, contradicting the guard's own
error message (`length of columns should >= length of contents!`), which
admits shorter contents as valid. -/
theorem arrayToMap_panics_on_shorter_contents :
    ArrayToMap ["a", "b"] [GoValue.vnull] = .panics ∧
    (["a", "b"] : List String) ≠ [] ∧
    ¬ (["a", "b"] : List String).length < ([GoValue.vnull] : List GoValue).length := by
  refine ⟨rfl, by decide, by decide⟩

/-- The batch settings observed by the extract calls after the first one:
`(flag=true, limit=B, offset=off+B), (…, off+2B), …`. -/
def obsList (B : ℤ) : ℕ → ℤ → List Batch
  | 0, _ => []
  | n + 1, off => ⟨true, B, off + B⟩ :: obsList B n (off + B)

/-- The `SetBatch` invocations issued by `FlashBatch` during the loop. -/
def callList (B : ℤ) : ℕ → ℤ → List (ℤ × ℤ)
  | 0, _ => []
  | n + 1, off => (B, off + B) :: callList B n (off + B)

/-- The errors the dispatched workers observe, batch by batch. -/
def werrList (we : ℕ → Option String) : ℕ → ℕ → List (Option String)
  | 0, _ => []
  | n + 1, k => we k :: werrList we n (k + 1)

theorem execBatchedLoop_workerErrors (we : ℕ → Option String) :
    ∀ (n k : ℕ) (cursor : Cursor) (hb : Batch) (tr : BatchedTrace),
      (execBatchedLoop we n k cursor hb tr).workerErrors =
        tr.workerErrors ++ werrList we n k := by
  intro n
  induction n with
  | zero => intro k cursor hb tr; simp [execBatchedLoop, werrList]
  | succ n ih =>
    intro k cursor hb tr
    rw [execBatchedLoop]
    simp only []
    rw [ih]
    simp [werrList]

theorem werrList_get (we : ℕ → Option String) :
    ∀ (n k j : ℕ), j < n → (werrList we n k)[j]? = some (we (k + j)) := by
  intro n
  induction n with
  | zero => intro k j h; omega
  | succ n ih =>
    intro k j h
    cases j with
    | zero => simp [werrList]
    | succ j =>
      simp only [werrList, List.getElem?_cons_succ]
      rw [ih (k + 1) j (by omega), show k + 1 + j = k + (j + 1) by omega]

theorem werrList_length (we : ℕ → Option String) :
    ∀ (n k : ℕ), (werrList we n k).length = n := by
  intro n
  induction n with
  | zero => intro k; rfl
  | succ n ih => intro k; simp [werrList, ih]

/-- C4: in batched mode a worker's transform/load error is observed only
inside that worker (the goroutine drops `execTransLoad`'s result); after
waiting for all dispatched workers `Exec` returns nil for every possible
assignment of worker errors — the `j`-th worker observed `workerErr j`,
yet nothing reaches the caller. -/
theorem batched_worker_errors_not_aggregated (B : ℤ) (n : ℕ)
    (workerErr : ℕ → Option String) :
    (ExecBatched B n workerErr).ret = none ∧
    (ExecBatched B n workerErr).workerErrors.length = n ∧
    (∀ j : ℕ, j < n →
        (ExecBatched B n workerErr).workerErrors[j]? = some (workerErr j)) := by
  have hw : (ExecBatched B n workerErr).workerErrors = werrList workerErr n 0 := by
    show (execBatchedLoop workerErr n 0 _ _ _).workerErrors = _
    rw [execBatchedLoop_workerErrors]
    rfl
  refine ⟨rfl, ?_, ?_⟩
  · rw [hw, werrList_length]
  · intro j hj
    rw [hw, werrList_get workerErr n 0 j hj]
    simp

theorem execBatchedLoop_trace (we : ℕ → Option String) (B : ℤ) (hB : B ≠ 0) :
    ∀ (n k : ℕ) (off : ℤ) (hb : Batch) (tr : BatchedTrace),
      execBatchedLoop we n k ⟨B, B, off⟩ hb tr =
        { observed := tr.observed ++ hb :: obsList B n off,
          setBatchCalls := tr.setBatchCalls ++ callList B n off,
          workerErrors := tr.workerErrors ++ werrList we n k,
          ret := tr.ret } := by
  intro n
  induction n with
  | zero =>
    intro k off hb tr
    simp [execBatchedLoop, obsList, callList, werrList]
  | succ n ih =>
    intro k off hb tr
    have hstep : execBatchedLoop we (n + 1) k ⟨B, B, off⟩ hb tr =
        execBatchedLoop we n (k + 1) ⟨B, B, off + B⟩
          ⟨true, B, off + B⟩
          { observed := tr.observed ++ [hb],
            setBatchCalls := tr.setBatchCalls ++ [(B, off + B)],
            workerErrors := tr.workerErrors ++ [we k],
            ret := tr.ret } := by
      rw [execBatchedLoop]
      simp [flashCursor, hB, Batch.setBatch]
    rw [hstep, ih]
    simp [obsList, callList, werrList]

theorem obsList_length (B : ℤ) : ∀ (n : ℕ) (off : ℤ), (obsList B n off).length = n := by
  intro n
  induction n with
  | zero => intro off; rfl
  | succ n ih => intro off; simp [obsList, ih]

theorem obsList_get (B : ℤ) :
    ∀ (n : ℕ) (off : ℤ) (j : ℕ), j < n →
      (obsList B n off)[j]? = some ⟨true, B, off + ((j : ℤ) + 1) * B⟩ := by
  intro n
  induction n with
  | zero => intro off j h; omega
  | succ n ih =>
    intro off j h
    cases j with
    | zero =>
      simp only [obsList, List.getElem?_cons_zero]
      exact congrArg (fun z => some (⟨true, B, z⟩ : Batch)) (by push_cast; ring)
    | succ j =>
      simp only [obsList, List.getElem?_cons_succ]
      rw [ih (off + B) j (by omega)]
      exact congrArg (fun z => some (⟨true, B, z⟩ : Batch)) (by push_cast; ring)

theorem callList_length (B : ℤ) : ∀ (n : ℕ) (off : ℤ), (callList B n off).length = n := by
  intro n
  induction n with
  | zero => intro off; rfl
  | succ n ih => intro off; simp [callList, ih]

theorem callList_get (B : ℤ) :
    ∀ (n : ℕ) (off : ℤ) (j : ℕ), j < n →
      (callList B n off)[j]? = some (B, off + ((j : ℤ) + 1) * B) := by
  intro n
  induction n with
  | zero => intro off j h; omega
  | succ n ih =>
    intro off j h
    cases j with
    | zero =>
      simp only [callList, List.getElem?_cons_zero]
      exact congrArg (fun z => some ((B, z) : ℤ × ℤ)) (by push_cast; ring)
    | succ j =>
      simp only [callList, List.getElem?_cons_succ]
      rw [ih (off + B) j (by omega)]
      exact congrArg (fun z => some ((B, z) : ℤ × ℤ)) (by push_cast; ring)

theorem execBatched_eq (B : ℤ) (n : ℕ) (we : ℕ → Option String) (hB : B ≠ 0) :
    ExecBatched B n we =
      { observed := ⟨false, 0, 0⟩ :: obsList B n 0,
        setBatchCalls := callList B n 0,
        workerErrors := werrList we n 0,
        ret := none } := by
  show { execBatchedLoop we n 0 ⟨B, B, 0⟩ ⟨false, 0, 0⟩
      { observed := [], setBatchCalls := [], workerErrors := [], ret := some "unset" }
      with ret := none } = _
  rw [execBatchedLoop_trace we B hB]
  rfl

/-- C2 (amended): with batching enabled at size `B ≠ 0`, the cursor starts
at `(offset, limit) = (0, B)`; after each extract call `FlashBatch`
advances the offset by the current limit under the batch mutex and issues
`SetBatch`, so a run with `n` successful extracts issues exactly the
`SetBatch` calls `(B, B), (B, 2B), …, (B, n·B)` and the `k`-th extract
call for `k ≥ 2` observes batch settings `(limit, offset) = (B, (k−1)·B)`
before its `Command` is built.  No `SetBatch` precedes the first extract
call: it observes the handle's zero-valued batch settings
`(flag=false, limit=0, offset=0)`, not `(B, 0)`.  The loop terminates as a
normal non-error outcome when extraction yields no more data: `Exec`
returns nil. -/
theorem batched_cursor_offsets (B : ℤ) (n : ℕ) (we : ℕ → Option String) (hB : B ≠ 0) :
    (ExecBatched B n we).ret = none ∧
    (ExecBatched B n we).observed.length = n + 1 ∧
    (ExecBatched B n we).observed[0]? = some ⟨false, 0, 0⟩ ∧
    (∀ k : ℕ, 1 ≤ k → k ≤ n →
        (ExecBatched B n we).observed[k]? = some ⟨true, B, (k : ℤ) * B⟩) ∧
    (ExecBatched B n we).setBatchCalls.length = n ∧
    (∀ j : ℕ, j < n →
        (ExecBatched B n we).setBatchCalls[j]? = some (B, ((j : ℤ) + 1) * B)) := by
  rw [execBatched_eq B n we hB]
  refine ⟨rfl, ?_, by simp, ?_, ?_, ?_⟩
  · simp [obsList_length]
  · intro k h1 h2
    cases k with
    | zero => exact absurd h1 (by omega)
    | succ j =>
      simp only [List.getElem?_cons_succ]
      rw [obsList_get B n 0 j (by omega),
        show (0 : ℤ) + ((j : ℤ) + 1) * B = ((j + 1 : ℕ) : ℤ) * B by push_cast; ring]
  · simp [callList_length]
  · intro j hj
    simpa using callList_get B n 0 j hj

/-- C2 counterexample: batch size 100 with three successful extracts.  The
claim says every extract call `k ≥ 1` honors `offset (k−1)·100, limit 100`
through an issued `SetBatch`, i.e. the first call honors `(100, 0)`; in
the code the first extract call runs before any `SetBatch`, observing the
handle's zero value `(flag=false, limit=0, offset=0)`, and the `SetBatch`
calls actually issued are `(100,100), (100,200), (100,300)` — none carries
offset 0. -/
theorem batched_first_extract_not_setbatched :
    (ExecBatched 100 3 fun _ => none).observed[0]? = some ⟨false, 0, 0⟩ ∧
    (⟨false, 0, 0⟩ : Batch) ≠ ⟨true, 100, 0⟩ ∧
    (ExecBatched 100 3 fun _ => none).setBatchCalls =
      [(100, 100), (100, 200), (100, 300)] ∧
    ((100 : ℤ), (0 : ℤ)) ∉ (ExecBatched 100 3 fun _ => none).setBatchCalls := by
  rw [execBatched_eq 100 3 (fun _ => none) (by norm_num)]
  refine ⟨by simp, by decide, by norm_num [callList], by norm_num [callList]⟩

/-- C2 witness: a concrete batched run (B = 1, one successful extract)
where the second extract call observes the batch settings the amended
claim predicts. -/
theorem batched_cursor_offsets_witness :
    (ExecBatched 1 1 fun _ => none).observed[1]? = some ⟨true, 1, ((1 : ℕ) : ℤ) * 1⟩ :=
  (batched_cursor_offsets 1 1 (fun _ => none) (by norm_num)).2.2.2.1 1 (by norm_num)
    (by norm_num)

/-- C4 witness: a batched run in which both workers observe the error
"boom" and `Exec` still returns nil. -/
theorem batched_worker_errors_not_aggregated_witness :
    (ExecBatched 1 2 fun _ => some "boom").ret = none ∧
    (ExecBatched 1 2 fun _ => some "boom").workerErrors[0]? = some (some "boom") :=
  ⟨(batched_worker_errors_not_aggregated 1 2 _).1,
   (batched_worker_errors_not_aggregated 1 2 _).2.2 0 (by norm_num)⟩

/-- C3: in single-shot mode `Exec` runs extract, transform, load
sequentially; an error from any handler call (`Command`, `Query`, `Exec`,
`Load`) is returned to the caller and aborts every later handler call
(the trace stops at the failing step); when all succeed the `Load` result
is returned after all six handler calls. -/
theorem single_shot_error_aborts (h : SingleHandlers) :
    (∀ e, h.extractCmd = .error e → execSingle h = (some e, [.extractCmd])) ∧
    (∀ e c1, h.extractCmd = .ok c1 → h.query c1 = .error e →
        execSingle h = (some e, [.extractCmd, .query])) ∧
    (∀ e c1 r, h.extractCmd = .ok c1 → h.query c1 = .ok r →
        h.transformCmd = .error e →
        execSingle h = (some e, [.extractCmd, .query, .transformCmd])) ∧
    (∀ e c1 r c2, h.extractCmd = .ok c1 → h.query c1 = .ok r →
        h.transformCmd = .ok c2 → h.transformExec r c2 = .error e →
        execSingle h = (some e, [.extractCmd, .query, .transformCmd, .transformExec])) ∧
    (∀ e c1 r c2 rs, h.extractCmd = .ok c1 → h.query c1 = .ok r →
        h.transformCmd = .ok c2 → h.transformExec r c2 = .ok rs →
        h.loadCmd = .error e →
        execSingle h =
          (some e, [.extractCmd, .query, .transformCmd, .transformExec, .loadCmd])) ∧
    (∀ c1 r c2 rs c3, h.extractCmd = .ok c1 → h.query c1 = .ok r →
        h.transformCmd = .ok c2 → h.transformExec r c2 = .ok rs →
        h.loadCmd = .ok c3 →
        execSingle h =
          (h.load rs c3,
           [.extractCmd, .query, .transformCmd, .transformExec, .loadCmd, .load])) := by
  refine ⟨?_, ?_, ?_, ?_, ?_, ?_⟩
  · intro e h1; simp [execSingle, h1]
  · intro e c1 h1 h2; simp [execSingle, h1, h2]
  · intro e c1 r h1 h2 h3; simp [execSingle, h1, h2, h3]
  · intro e c1 r c2 h1 h2 h3 h4; simp [execSingle, h1, h2, h3, h4]
  · intro e c1 r c2 rs h1 h2 h3 h4 h5; simp [execSingle, h1, h2, h3, h4, h5]
  · intro c1 r c2 rs c3 h1 h2 h3 h4 h5; simp [execSingle, h1, h2, h3, h4, h5]

/-- C3 witness: transform's `Exec` fails on a concrete run; the error is
returned and load is never invoked. -/
theorem single_shot_error_aborts_witness :
    execSingle ⟨.ok 0, fun _ => .ok 1, .ok 2, fun _ _ => .error "boom", .ok 3,
        fun _ _ => none⟩ =
      (some "boom", [.extractCmd, .query, .transformCmd, .transformExec]) :=
  (single_shot_error_aborts _).2.2.2.1 "boom" 0 1 2 rfl rfl rfl rfl

/-! ### Tabular remap round trip (C6) -/

theorem mapLookup_insert (m : List (String × GoValue)) (k : String) (v : GoValue)
    (c : String) :
    mapLookup (mapInsert m k v) c = if k = c then some v else mapLookup m c := by
  induction m with
  | nil => rfl
  | cons kv rest ih =>
    rcases kv with ⟨k0, v0⟩
    by_cases h0 : k0 = k
    · subst h0
      by_cases hkc : k0 = c <;> simp [mapInsert, mapLookup, hkc]
    · by_cases hkc : k0 = c
      · subst hkc
        have hkk : ¬ k = k0 := fun h => h0 h.symm
        simp [mapInsert, mapLookup, h0, hkk]
      · simp [mapInsert, mapLookup, h0, hkc, ih]

/-- The effect of the `ArrayToMap` write loop: fold the column/value pairs
into the accumulator map. -/
def insertAll (acc : List (String × GoValue)) (ps : List (String × GoValue)) :
    List (String × GoValue) :=
  ps.foldl (fun a p => mapInsert a p.1 p.2) acc

theorem arrayToMapLoop_eq (f : String → GoValue) :
    ∀ (cols : List String) (idx : ℕ) (contents : List GoValue)
      (acc : List (String × GoValue)),
      contents.drop idx = cols.map f →
      arrayToMapLoop cols idx contents acc =
        .ok (insertAll acc (cols.map fun k => (k, f k))) := by
  intro cols
  induction cols with
  | nil => intro idx contents acc _; rfl
  | cons k rest ih =>
    intro idx contents acc hdrop
    have hget : contents.get? idx = some (f k) := by
      have h0 : (contents.drop idx).get? 0 = some (f k) := by
        rw [hdrop]; rfl
      rwa [List.get?_drop, Nat.add_zero] at h0
    have hdrop2 : contents.drop (idx + 1) = rest.map f := by
      have h1 : contents.drop (idx + 1) = (contents.drop idx).drop 1 := by
        rw [List.drop_drop, Nat.add_comm]
      rw [h1, hdrop]
      rfl
    simp only [arrayToMapLoop, hget]
    rw [ih (idx + 1) contents (mapInsert acc k (f k)) hdrop2]
    rfl

theorem mapLookup_insertAll (f : String → GoValue) :
    ∀ (keys : List String) (acc : List (String × GoValue)) (c : String),
      mapLookup (insertAll acc (keys.map fun k => (k, f k))) c =
        if c ∈ keys then some (f c) else mapLookup acc c := by
  intro keys
  induction keys with
  | nil => intro acc c; simp [insertAll]
  | cons k rest ih =>
    intro acc c
    simp only [List.map_cons, insertAll, List.foldl_cons]
    rw [show (List.foldl (fun a p => mapInsert a p.1 p.2) (mapInsert acc k (f k))
        (rest.map fun k => (k, f k))) =
      insertAll (mapInsert acc k (f k)) (rest.map fun k => (k, f k)) from rfl]
    rw [ih]
    by_cases hc : c ∈ rest
    · simp [hc]
    · by_cases hk : k = c
      · subst hk
        simp [hc, mapLookup_insert]
      · have : c ∉ (k :: rest) := by
          intro hmem
          rcases List.mem_cons.mp hmem with h1 | h1
          · exact hk h1.symm
          · exact hc h1
        simp only [hc, if_false, mapLookup_insert, hk, if_neg hk]
        simp [this]

/-- C6: for any fixed non-empty column list, `MapToArray` (missing keys
become null, never an error) followed by `ArrayToMap` succeeds and is the
identity on the value set: the resulting map assigns every column exactly
the value the original map assigned it (null when it was absent). -/
theorem arrayToMap_mapToArray_roundtrip (columns : List String)
    (m : List (String × GoValue)) (hne : columns ≠ []) :
    ∃ arr m2,
      MapToArray columns m = .ok arr ∧
      ArrayToMap columns arr = .ok m2 ∧
      ∀ c ∈ columns, mapLookup m2 c = some ((mapLookup m c).getD .vnull) := by
  have hlen : columns.length ≠ 0 := by
    intro h0
    exact hne (List.eq_nil_of_length_eq_zero h0)
  refine ⟨columns.map fun k => (mapLookup m k).getD .vnull,
    insertAll [] (columns.map fun k => (k, (mapLookup m k).getD .vnull)), ?_, ?_, ?_⟩
  · simp only [MapToArray, if_neg hlen]
  · simp only [ArrayToMap, if_neg hlen, List.length_map, lt_irrefl, if_false]
    rw [arrayToMapLoop_eq (fun k => (mapLookup m k).getD .vnull) columns 0
      (columns.map fun k => (mapLookup m k).getD .vnull) [] (by simp)]
  · intro c hc
    rw [mapLookup_insertAll]
    simp [hc]

/-- C6 witness: round trip on concrete columns and a partial map. -/
theorem arrayToMap_mapToArray_roundtrip_witness :
    ∃ arr m2,
      MapToArray ["a", "b"] [("b", GoValue.vbool true)] = .ok arr ∧
      ArrayToMap ["a", "b"] arr = .ok m2 ∧
      ∀ c ∈ ["a", "b"],
        mapLookup m2 c = some ((mapLookup [("b", GoValue.vbool true)] c).getD .vnull) :=
  arrayToMap_mapToArray_roundtrip ["a", "b"] [("b", GoValue.vbool true)] (by decide)

/-! ### Int coercion (C1) -/

theorem truncQ_eq_floor {q : ℚ} (h : 0 ≤ q) : truncQ q = ⌊q⌋ := by
  have hnum : 0 ≤ q.num := Rat.num_nonneg.mpr h
  have hdiv : ((q.num.toNat / q.den : ℕ) : ℤ) = (q.num.toNat : ℤ) / (q.den : ℤ) :=
    Int.ofNat_div _ _
  rw [truncQ, if_pos hnum, Rat.floor_def, hdiv, Int.toNat_of_nonneg hnum]

theorem truncQ_eq_ceil {q : ℚ} (h : q < 0) : truncQ q = ⌈q⌉ := by
  have hq : ¬ (0 ≤ q.num) := by
    rw [Rat.num_nonneg]
    exact not_le.mpr h
  have hpos : 0 ≤ -q.num := by
    have : q.num < 0 := lt_of_not_ge hq
    omega
  have hdiv : (((-q.num).toNat / q.den : ℕ) : ℤ) = ((-q.num).toNat : ℤ) / (q.den : ℤ) :=
    Int.ofNat_div _ _
  have hceil : ⌈q⌉ = -⌊-q⌋ := by
    rw [Int.floor_neg, neg_neg]
  rw [truncQ, if_neg hq, hceil, Rat.floor_def]
  rw [hdiv, Int.toNat_of_nonneg hpos]
  congr 1

/-- C1: `int` coercion accepts Go `int` and `int64` directly; a `float64`
is rounded to the nearest integer with ties away from zero (witnessed by
the nearest-bound `|r − q| ≤ 1/2` with ties forced outward, and by the
concrete evaluations 2.5 ↦ 3 and −2.5 ↦ −3); a numeric string is parsed
by `ParseFloat` (comma thousands separators and scientific notation
tolerated) and truncated toward zero (`"1,234" ↦ 1234`, `"1.9" ↦ 1`,
`"-1.9" ↦ −1`); a string `ParseFloat` rejects, nil, and every other
source kind yield an error. -/
theorem intFromInterface_coercion :
    (∀ n : ℤ, IntFromInterface (.vint n) = .ok n) ∧
    (∀ n : ℤ, IntFromInterface (.vint64 n) = .ok n) ∧
    (∀ (q : ℚ) (r : ℤ), IntFromInterface (.vfloat64 q) = .ok r →
        |(r : ℚ) - q| ≤ 1 / 2 ∧ (|(r : ℚ) - q| = 1 / 2 → |(r : ℚ)| = |q| + 1 / 2)) ∧
    IntFromInterface (.vfloat64 (5 / 2)) = .ok 3 ∧
    IntFromInterface (.vfloat64 (-(5 / 2))) = .ok (-3) ∧
    (∀ (s : String) (q : ℚ), ParseFloat s = .ok q →
        IntFromInterface (.vstring s) = .ok (truncQ q)) ∧
    IntFromInterface (.vstring "1,234") = .ok 1234 ∧
    IntFromInterface (.vstring "1.9") = .ok 1 ∧
    IntFromInterface (.vstring "-1.9") = .ok (-1) ∧
    (∀ (s : String) (e : String), ParseFloat s = .error e →
        ∃ e2, IntFromInterface (.vstring s) = .error e2) ∧
    (∀ v : GoValue, (∀ n, v ≠ .vint n) → (∀ n, v ≠ .vint64 n) →
        (∀ q, v ≠ .vfloat64 q) → (∀ s, v ≠ .vstring s) →
        ∃ e, IntFromInterface v = .error e) := by
  refine ⟨fun n => rfl, fun n => rfl, ?_, ?_, ?_, ?_, rfl, rfl, rfl, ?_, ?_⟩
  · intro q r h
    simp only [IntFromInterface, Except.ok.injEq] at h
    by_cases hq : 0 ≤ q
    · rw [if_pos hq, truncQ_eq_floor (by linarith)] at h
      subst h
      have h1 : ((⌊q + 1 / 2⌋ : ℤ) : ℚ) ≤ q + 1 / 2 := Int.floor_le _
      have h2 : q + 1 / 2 < (⌊q + 1 / 2⌋ : ℤ) + 1 := Int.lt_floor_add_one _
      refine ⟨abs_le.mpr ⟨by linarith, by linarith⟩, ?_⟩
      intro htie
      rcases (abs_eq (by norm_num : (0 : ℚ) ≤ 1 / 2)).mp htie with he | he
      · rw [abs_of_nonneg (by linarith : (0 : ℚ) ≤ ((⌊q + 1 / 2⌋ : ℤ) : ℚ)),
          abs_of_nonneg hq]
        linarith
      · exfalso
        linarith
    · rw [if_neg hq, truncQ_eq_ceil (by push_neg at hq; linarith)] at h
      push_neg at hq
      subst h
      have h1 : q - 1 / 2 ≤ ((⌈q - 1 / 2⌉ : ℤ) : ℚ) := Int.le_ceil _
      have h2 : ((⌈q - 1 / 2⌉ : ℤ) : ℚ) < q - 1 / 2 + 1 := Int.ceil_lt_add_one _
      refine ⟨abs_le.mpr ⟨by linarith, by linarith⟩, ?_⟩
      intro htie
      rcases (abs_eq (by norm_num : (0 : ℚ) ≤ 1 / 2)).mp htie with he | he
      · exfalso
        linarith
      · rw [abs_of_nonpos (by linarith : ((⌈q - 1 / 2⌉ : ℤ) : ℚ) ≤ 0),
          abs_of_nonpos (by linarith : q ≤ 0)]
        linarith
  · simp only [IntFromInterface]
    rw [if_pos (by norm_num : (0 : ℚ) ≤ 5 / 2),
      truncQ_eq_floor (by norm_num : (0 : ℚ) ≤ 5 / 2 + 1 / 2),
      show (5 / 2 + 1 / 2 : ℚ) = ((3 : ℤ) : ℚ) by norm_num, Int.floor_intCast]
  · simp only [IntFromInterface]
    rw [if_neg (by norm_num : ¬ (0 : ℚ) ≤ -(5 / 2)),
      truncQ_eq_ceil (by norm_num : (-(5 / 2) - 1 / 2 : ℚ) < 0),
      show (-(5 / 2) - 1 / 2 : ℚ) = ((-3 : ℤ) : ℚ) by norm_num, Int.ceil_intCast]
  · intro s q h
    simp [IntFromInterface, h]
  · intro s e h
    simp only [IntFromInterface, h]
    exact ⟨_, rfl⟩
  · intro v h1 h2 h3 h4
    cases v
    case vint n => exact absurd rfl (h1 n)
    case vint64 n => exact absurd rfl (h2 n)
    case vfloat64 q => exact absurd rfl (h3 q)
    case vstring s => exact absurd rfl (h4 s)
    all_goals exact ⟨_, rfl⟩

/-- C1 witness: the string conjunct applied at `"2.5"` and the
nearest-integer bound applied at `q = 5/2, r = 3`. -/
theorem intFromInterface_coercion_witness :
    IntFromInterface (.vstring "2.5") = .ok (truncQ (mkRat 25 10)) ∧
    |((3 : ℤ) : ℚ) - 5 / 2| ≤ 1 / 2 :=
  ⟨intFromInterface_coercion.2.2.2.2.2.1 "2.5" (mkRat 25 10) rfl,
   (intFromInterface_coercion.2.2.1 (5 / 2) 3 intFromInterface_coercion.2.2.2.1).1⟩

/-! ### Unknown type tags (C8) -/

/-- The type tags recognized by `StrToType` together with the tags
`Command.UnmarshalJSON` handles before dispatching to it. -/
def recognizedTags : List String :=
  ["int", "string", "float", "bool", "time", "map", "list", "array", "geometry",
   "json", "jsonarray", "bson.RegEx", "complex", "single", "raw"]

/-- A trivial oracle assignment for concrete evaluations. -/
def extTriv : Ext :=
  { parseInLocation := fun _ _ => none,
    parseGeometry := fun _ => none,
    parseJsonStr := fun _ => none,
    marshalJson := fun _ => .error "marshal unsupported",
    formatFloat64 := fun _ => "",
    formatFloat32 := fun _ => "",
    timeToString := fun _ => "" }

theorem strToType_unknown (ext : Ext) (tag : String) (hmem : tag ∉ recognizedTags) :
    ∀ (src : GoValue) (layout : Option String), ∃ e, StrToType ext tag src layout = .error e := by
  simp only [recognizedTags, List.mem_cons, List.not_mem_nil, or_false, not_or] at hmem
  obtain ⟨h1, h2, h3, h4, h5, h6, h7, h8, h9, h10, h11, h12, h13, h14, h15⟩ := hmem
  intro src layout
  simp only [StrToType, h1, h2, h3, h4, h5, h6, h7, h8, h9, h10, h11, h12, if_false,
    or_self, ite_false]
  exact ⟨_, rfl⟩

/-- C8 (amended): for every non-empty type tag outside the recognized set,
`StrToType` returns an unsupported-type error for every source value, and
`Command.UnmarshalJSON` propagates it as a parse failure whenever the
declared type decodes to that tag and a value field is present. -/
theorem unknown_type_tag_always_errors (ext : Ext) (tag : String)
    (hmem : tag ∉ recognizedTags) (hne : tag ≠ "") :
    (∀ (src : GoValue) (layout : Option String),
        ∃ e, StrToType ext tag src layout = .error e) ∧
    (∀ fs : List (String × Json), getStringField fs "type" = .ok tag →
        (getRawField fs "value").isSome = true →
        ∃ e, unmarshalCommand ext (.obj fs) = .error e) := by
  have hmem2 := hmem
  simp only [recognizedTags, List.mem_cons, List.not_mem_nil, or_false, not_or] at hmem2
  obtain ⟨h1, h2, h3, h4, h5, h6, h7, h8, h9, h10, h11, h12, h13, h14, h15⟩ := hmem2
  refine ⟨strToType_unknown ext tag hmem, ?_⟩
  intro fs htype hval
  obtain ⟨iv, hiv⟩ := Option.isSome_iff_exists.mp hval
  rw [unmarshalCommand]
  rcases hname : getStringField fs "name" with e | name
  · exact ⟨e, rfl⟩
  · simp only [htype, hiv, h10, h11, h13, h14, h15, hne, ne_eq, or_self, if_false,
      ite_false, not_false_iff, if_true, ite_true]
    obtain ⟨e2, he2⟩ := strToType_unknown ext tag hmem (jsonToGo iv) none
    rw [he2]
    exact ⟨e2, rfl⟩

/-- C8 counterexample: the empty tag is outside the recognized set and
`StrToType` rejects it, yet `Command.UnmarshalJSON` does not propagate any
failure: with `type` declared as `""` and a value present, parsing
succeeds with a nil `Value`, because the `StrToType` branch is guarded by
a non-empty tag. -/
theorem empty_tag_error_not_propagated :
    ("" ∉ recognizedTags) ∧
    (∃ e, StrToType extTriv "" (.vfloat64 1) none = .error e) ∧
    unmarshalCommand extTriv (.obj [("type", .str ""), ("value", .num 1)]) =
      .ok (.mk "" "" .vnull none) := by
  refine ⟨by decide, ⟨_, rfl⟩, ?_⟩
  rw [unmarshalCommand]
  simp only [getStringField, getField, getRawField, List.foldl]
  simp

/-- C8 witness: the amended theorem applied at the unrecognized tag
"frobnicate" with a value present. -/
theorem unknown_type_tag_always_errors_witness :
    ∃ e, unmarshalCommand extTriv
      (.obj [("type", .str "frobnicate"), ("value", .num 1)]) = .error e :=
  (unknown_type_tag_always_errors extTriv "frobnicate" (by decide) (by decide)).2
    [("type", .str "frobnicate"), ("value", .num 1)] rfl rfl

/-! ### Parse-time kind invariant (C5) -/

/-- The claim's notion of "runtime kind matches the declared type tag". -/
def kindMatches : String → GoValue → Bool
  | "int", .vint64 _ => true
  | "string", .vstring _ => true
  | "float", .vfloat64 _ => true
  | "bool", .vbool _ => true
  | "time", .vtime _ => true
  | "map", .vmap _ => true
  | "list", .varray _ => true
  | "array", .varray _ => true
  | "geometry", .vgeometry _ _ => true
  | "bson.RegEx", .vregex _ _ => true
  | "json", .vmap _ => true
  | "jsonarray", .vmaparray _ => true
  | "complex", .vcommands _ => true
  | "single", .vcommands _ => true
  | "raw", .vstring _ => true
  | _, _ => false

/-- Whether the input object carries no usable `value` field (absent or
JSON null, leaving the `*json.RawMessage` pointer nil). -/
def valueFieldAbsent : Json → Bool
  | .obj fs => (getRawField fs "value").isNone
  | _ => true

theorem strToType_kind (ext : Ext) (tag : String) (src : GoValue)
    (layout : Option String) (v : GoValue)
    (h : StrToType ext tag src layout = .ok v)
    (hj : tag ≠ "json") (hja : tag ≠ "jsonarray") : kindMatches tag v = true := by
  simp only [StrToType] at h
  by_cases h1 : tag = "int"
  · rw [if_pos h1] at h
    rcases hx : IntFromInterface src with e | x <;> rw [hx] at h <;> simp [Except.map] at h
    subst h1; rw [← h]; rfl
  rw [if_neg h1] at h
  by_cases h2 : tag = "string"
  · rw [if_pos h2] at h
    rcases hx : StringFromInterface ext src with e | x <;> rw [hx] at h <;>
      simp [Except.map] at h
    subst h2; rw [← h]; rfl
  rw [if_neg h2] at h
  by_cases h3 : tag = "float"
  · rw [if_pos h3] at h
    rcases hx : FloatFromInterface src with e | x <;> rw [hx] at h <;>
      simp [Except.map] at h
    subst h3; rw [← h]; rfl
  rw [if_neg h3] at h
  by_cases h4 : tag = "list" ∨ tag = "array"
  · rw [if_pos h4] at h
    rcases hx : ArrayFromInterface src with e | x <;> rw [hx] at h <;>
      simp [Except.map] at h
    rcases h4 with h4 | h4 <;> (subst h4; rw [← h]; rfl)
  rw [if_neg h4] at h
  by_cases h5 : tag = "map"
  · rw [if_pos h5] at h
    rcases hx : MapFromInterface ext src with e | x <;> rw [hx] at h <;>
      simp [Except.map] at h
    subst h5; rw [← h]; rfl
  rw [if_neg h5] at h
  by_cases h6 : tag = "time"
  · rw [if_pos h6] at h
    rcases hx : TimeFromInterface ext src (layout.getD "2006-01-02") with e | x <;>
      rw [hx] at h <;> simp [Except.map] at h
    subst h6; rw [← h]; rfl
  rw [if_neg h6] at h
  by_cases h7 : tag = "geometry"
  · rw [if_pos h7] at h
    rcases hx : GeometryFromInterface ext src with e | x <;> rw [hx] at h <;>
      simp [Except.map] at h
    subst h7; rw [← h]; rfl
  rw [if_neg h7] at h
  by_cases h8 : tag = "bool"
  · rw [if_pos h8] at h
    rcases hx : BoolFromInterface src with e | x <;> rw [hx] at h <;>
      simp [Except.map] at h
    subst h8; rw [← h]; rfl
  rw [if_neg h8] at h
  by_cases h9 : tag = "bson.RegEx"
  · rw [if_pos h9] at h
    rcases hx : BsonRegExFromInterface ext src with e | x <;> rw [hx] at h <;>
      simp [Except.map] at h
    subst h9; rw [← h]; rfl
  rw [if_neg h9, if_neg hj, if_neg hja] at h
  simp at h

/-- On any successful parse the `Value`'s runtime kind matches the tag,
except that a success with an absent (or null) value field or an empty tag
carries a nil `Value`. -/
theorem unmarshalCommand_ok_kind (ext : Ext) (j : Json) (c : Command)
    (h : unmarshalCommand ext j = .ok c) :
    kindMatches c.type c.value = true ∨
      (c.value = .vnull ∧ (valueFieldAbsent j = true ∨ c.type = "")) := by
  cases j with
  | null =>
    rw [unmarshalCommand] at h
    simp only [GoOutcome.ok.injEq] at h
    subst h
    exact Or.inr ⟨rfl, Or.inr rfl⟩
  | bool b => rw [unmarshalCommand] at h <;> simp_all
  | num q => rw [unmarshalCommand] at h <;> simp_all
  | str s => rw [unmarshalCommand] at h <;> simp_all
  | arr es => rw [unmarshalCommand] at h <;> simp_all
  | obj fs =>
    rw [unmarshalCommand] at h
    rcases hname : getStringField fs "name" with e | name <;> rw [hname] at h
    · simp at h
    rcases htype : getStringField fs "type" with e | itemType <;> rw [htype] at h
    · simp at h
    simp only [] at h
    by_cases hc1 : itemType = "complex" ∨ itemType = "single"
    · rw [if_pos hc1] at h
      rcases hv : getRawField fs "value" with _ | iv <;> rw [hv] at h
      · simp at h
      cases iv with
      | arr js =>
        simp only [] at h
        cases hl : unmarshalCommandList ext js with
        | ok cs =>
          rw [hl] at h
          try simp only [] at h
          simp only [GoOutcome.ok.injEq] at h
          subst h
          rcases hc1 with hc1 | hc1 <;> (subst hc1; exact Or.inl rfl)
        | error e => rw [hl] at h; simp at h
        | panics => rw [hl] at h; simp at h
      | null => simp at h
      | bool b => simp at h
      | num q => simp at h
      | str s => simp at h
      | obj fs2 => simp at h
    rw [if_neg hc1] at h
    by_cases hc2 : itemType = "json"
    · rw [if_pos hc2] at h
      rcases hv : getRawField fs "value" with _ | iv <;> rw [hv] at h
      · simp at h
      cases iv with
      | obj fs2 =>
        simp only [] at h
        simp only [GoOutcome.ok.injEq] at h
        subst h
        subst hc2
        exact Or.inl rfl
      | null => simp at h
      | bool b => simp at h
      | num q => simp at h
      | str s => simp at h
      | arr js => simp at h
    rw [if_neg hc2] at h
    by_cases hc3 : itemType = "jsonarray"
    · rw [if_pos hc3] at h
      rcases hv : getRawField fs "value" with _ | iv <;> rw [hv] at h
      · simp at h
      cases iv with
      | arr js =>
        simp only [] at h
        rcases hl : unmarshalMapList js with e | ms <;> rw [hl] at h <;>
          try simp only [] at h
        · simp at h
        simp only [GoOutcome.ok.injEq] at h
        subst h
        subst hc3
        exact Or.inl rfl
      | null => simp at h
      | bool b => simp at h
      | num q => simp at h
      | str s => simp at h
      | obj fs2 => simp at h
    rw [if_neg hc3] at h
    by_cases hc4 : itemType = "raw"
    · rw [if_pos hc4] at h
      rcases hv : getRawField fs "value" with _ | iv <;> rw [hv] at h
      · simp at h
      simp only [] at h
      simp only [GoOutcome.ok.injEq] at h
      subst h
      subst hc4
      exact Or.inl rfl
    rw [if_neg hc4] at h
    by_cases hc5 : itemType ≠ ""
    · rw [if_pos hc5] at h
      rcases hv : getRawField fs "value" with _ | iv <;> rw [hv] at h
      · simp only [] at h
        simp only [GoOutcome.ok.injEq] at h
        subst h
        exact Or.inr ⟨rfl, Or.inl (by simp [valueFieldAbsent, hv])⟩
      simp only [] at h
      rcases hs : StrToType ext itemType (jsonToGo iv) none with e | v <;> rw [hs] at h <;>
        try simp only [] at h
      · simp at h
      simp only [GoOutcome.ok.injEq] at h
      subst h
      exact Or.inl (strToType_kind ext itemType (jsonToGo iv) none v hs hc2 hc3)
    · rw [if_neg hc5] at h
      simp only [GoOutcome.ok.injEq] at h
      subst h
      push_neg at hc5
      exact Or.inr ⟨rfl, Or.inr hc5⟩

/-- C5 (amended): whenever `Command.UnmarshalJSON` succeeds, the resulting
`Value`'s runtime kind matches the declared type tag (`int64` for `int`, a
`[]Command` for `complex`/`single`, the retained payload string for `raw`,
and so on) — except that a success with an absent (or JSON null) value
field or an empty tag carries a nil `Value`.  With the value pointer nil,
the five branches that dereference it (`complex`, `single`, `json`,
`jsonarray`, `raw`) do not succeed at all but panic; every other non-empty
tag, recognized or not, and the empty tag succeed with a nil `Value`. -/
theorem unmarshal_value_kind_matches (ext : Ext) :
    (∀ (j : Json) (c : Command), unmarshalCommand ext j = .ok c →
      kindMatches c.type c.value = true ∨
        (c.value = .vnull ∧ (valueFieldAbsent j = true ∨ c.type = ""))) ∧
    (∀ (fs : List (String × Json)) (name tag : String),
      getStringField fs "name" = .ok name →
      getStringField fs "type" = .ok tag →
      getRawField fs "value" = none →
      (tag = "complex" ∨ tag = "single" ∨ tag = "json" ∨ tag = "jsonarray" ∨
        tag = "raw") →
      unmarshalCommand ext (.obj fs) = .panics) ∧
    (∀ (fs : List (String × Json)) (name tag : String),
      getStringField fs "name" = .ok name →
      getStringField fs "type" = .ok tag →
      getRawField fs "value" = none →
      tag ≠ "complex" → tag ≠ "single" → tag ≠ "json" → tag ≠ "jsonarray" →
      tag ≠ "raw" →
      unmarshalCommand ext (.obj fs) =
        .ok (.mk name tag .vnull (getRawField fs "arg"))) := by
  refine ⟨fun j c h => unmarshalCommand_ok_kind ext j c h, ?_, ?_⟩
  · intro fs name tag hname htype hval htags
    rw [unmarshalCommand, hname, htype]
    simp only []
    rcases htags with h | h | h | h | h
    · rw [if_pos (Or.inl h)]
      split <;> simp_all
    · rw [if_pos (Or.inr h)]
      split <;> simp_all
    · rw [if_neg (by subst h; decide), if_pos h, hval]
    · rw [if_neg (by subst h; decide), if_neg (by subst h; decide), if_pos h,
        hval]
    · rw [if_neg (by subst h; decide), if_neg (by subst h; decide),
        if_neg (by subst h; decide), if_pos h, hval]
  · intro fs name tag hname htype hval h1 h2 h3 h4 h5
    rw [unmarshalCommand, hname, htype]
    simp only []
    rw [if_neg (not_or.mpr ⟨h1, h2⟩), if_neg h3, if_neg h4, if_neg h5]
    by_cases h6 : tag = ""
    · rw [if_neg (not_not_intro h6)]
    · rw [if_pos h6, hval]

/-- C5 counterexample: a command declaring type `int` with no value field
parses successfully, and its `Value` is nil — not an `int64` — so the
kind/tag match does not hold on every successful parse. -/
theorem value_kind_mismatch_on_absent_value :
    unmarshalCommand extTriv (.obj [("name", .str "n"), ("type", .str "int")]) =
      .ok (.mk "n" "int" .vnull none) ∧
    kindMatches "int" .vnull = false := by
  constructor
  · rw [unmarshalCommand]
    simp only [getStringField, getField, getRawField, List.foldl]
    simp
  · rfl

/-- C5 witness: the amended invariant at three concrete parses — a
successful `string` command with a value present, a `raw` command whose
absent value dereferences the nil pointer (a panic), and a `float` command
whose absent value parses to a nil `Value`. -/
theorem unmarshal_value_kind_matches_witness :
    (kindMatches (Command.mk "" "string" (.vstring "x") none).type
        (Command.mk "" "string" (.vstring "x") none).value = true ∨
      ((Command.mk "" "string" (.vstring "x") none).value = .vnull ∧
        (valueFieldAbsent (.obj [("type", Json.str "string"), ("value", Json.str "x")]) =
            true ∨
          (Command.mk "" "string" (.vstring "x") none).type = ""))) ∧
    unmarshalCommand extTriv (.obj [("name", .str "n"), ("type", .str "raw")]) =
      .panics ∧
    unmarshalCommand extTriv
        (.obj [("name", .str "n"), ("type", .str "float")]) =
      .ok (.mk "n" "float" .vnull
        (getRawField [("name", Json.str "n"), ("type", Json.str "float")] "arg")) :=
  ⟨(unmarshal_value_kind_matches extTriv).1
    (.obj [("type", .str "string"), ("value", .str "x")])
    (.mk "" "string" (.vstring "x") none)
    (by
      rw [unmarshalCommand]
      simp only [getStringField, getField, getRawField, List.foldl]
      simp [StrToType, StringFromInterface, jsonToGo, Except.map]),
   (unmarshal_value_kind_matches extTriv).2.1
    [("name", .str "n"), ("type", .str "raw")] "n" "raw" rfl rfl rfl
    (by decide),
   (unmarshal_value_kind_matches extTriv).2.2
    [("name", .str "n"), ("type", .str "float")] "n" "float" rfl rfl rfl
    (by decide) (by decide) (by decide) (by decide) (by decide)⟩

/-! ### Time coercion (C7) -/

theorem takeDigits_eq_append :
    ∀ (cs r t : List Char), takeDigits cs = (r, t) → cs = r ++ t := by
  intro cs
  induction cs with
  | nil => intro r t h; simp [takeDigits] at h; simp [h.1, h.2]
  | cons c rest ih =>
    intro r t h
    by_cases hd : c.isDigit
    · rcases hrec : takeDigits rest with ⟨r2, t2⟩
      simp [takeDigits, hd, hrec] at h
      rw [← h.1, ← h.2]
      simpa using ih r2 t2 hrec
    · simp [takeDigits, hd] at h
      simp [← h.1, ← h.2]

theorem takeDigits_all_digits :
    ∀ (ds : List Char), (∀ c ∈ ds, c.isDigit = true) → takeDigits ds = (ds, []) := by
  intro ds
  induction ds with
  | nil => intro _; rfl
  | cons d rest ih =>
    intro hall
    have hd : d.isDigit = true := hall d (List.mem_cons_self _ _)
    have hrest := ih fun c hc => hall c (List.mem_cons_of_mem _ hc)
    simp [takeDigits, hd, hrest]

theorem takeDigits_append (y : Char) (hy : y.isDigit = false) :
    ∀ (ds rest : List Char), (∀ c ∈ ds, c.isDigit = true) →
      takeDigits (ds ++ y :: rest) = (ds, y :: rest) := by
  intro ds
  induction ds with
  | nil => intro rest _; simp [takeDigits, hy]
  | cons d ds2 ih =>
    intro rest hall
    have hd : d.isDigit = true := hall d (List.mem_cons_self _ _)
    have hrec := ih rest fun c hc => hall c (List.mem_cons_of_mem _ hc)
    simp [takeDigits, hd, hrec]

theorem matchDatePattern_mem (sep : Char) (cs : List Char)
    (h : matchDatePattern sep cs = true) : sep ∈ cs := by
  rcases h1 : takeDigits cs with ⟨r1, t1⟩
  have hcs := takeDigits_eq_append cs r1 t1 h1
  rw [matchDatePattern, h1] at h
  rcases r1 with _ | ⟨d1, r1t⟩
  · simp at h
  rcases t1 with _ | ⟨c1, t2⟩
  · simp at h
  by_cases hc1 : c1 = sep
  · subst hcs hc1
    exact List.mem_append_right _ (List.mem_cons_self _ _)
  · simp [hc1] at h

theorem containsDatePattern_of_match (sep : Char) (cs : List Char)
    (h : matchDatePattern sep cs = true) : containsDatePattern sep cs = true := by
  cases cs with
  | nil => simp [matchDatePattern, takeDigits] at h
  | cons c rest => simp [containsDatePattern, h]

theorem containsDatePattern_eq_false (sep : Char) :
    ∀ cs : List Char, sep ∉ cs → containsDatePattern sep cs = false := by
  intro cs
  induction cs with
  | nil => intro _; rfl
  | cons c rest ih =>
    intro hmem
    cases hmatch : matchDatePattern sep (c :: rest) with
    | true => exact absurd (matchDatePattern_mem _ _ hmatch) hmem
    | false =>
      simp [containsDatePattern, hmatch,
        ih fun hm => hmem (List.mem_cons_of_mem _ hm)]

theorem matchDatePattern_true (sep : Char) (hsep : sep.isDigit = false)
    (a b c : List Char) (ha : a ≠ []) (hb : b ≠ []) (hc : c ≠ [])
    (hda : ∀ ch ∈ a, ch.isDigit = true) (hdb : ∀ ch ∈ b, ch.isDigit = true)
    (hdc : ∀ ch ∈ c, ch.isDigit = true) :
    matchDatePattern sep (a ++ sep :: (b ++ sep :: c)) = true := by
  rw [matchDatePattern, takeDigits_append sep hsep a (b ++ sep :: c) hda]
  rcases a with _ | ⟨a0, at2⟩
  · exact absurd rfl ha
  simp only [if_pos rfl]
  rw [takeDigits_append sep hsep b c hdb]
  rcases b with _ | ⟨b0, bt2⟩
  · exact absurd rfl hb
  simp only [if_pos rfl]
  rcases c with _ | ⟨c0, ct2⟩
  · exact absurd rfl hc
  exact hdc c0 (List.mem_cons_self _ _)

theorem splitGoAux_no_head (s0 : Char) (stail : List Char) :
    ∀ (cs acc : List Char), s0 ∉ cs →
      splitGoAux (s0 :: stail) cs acc = [acc.reverse ++ cs] := by
  intro cs
  induction cs with
  | nil => intro acc _; simp [splitGoAux]
  | cons c rest ih =>
    intro acc hmem
    have hne : (s0 == c) = false := by
      simp only [beq_eq_false_iff_ne, ne_eq]
      intro he
      exact hmem (he ▸ List.mem_cons_self _ _)
    rw [splitGoAux, dif_neg]
    · rw [ih (c :: acc) fun hm => hmem (List.mem_cons_of_mem _ hm)]
      simp
    · simp [List.isPrefixOf, hne]

theorem splitGoAux_single_boundary (s : Char) :
    ∀ (xs ys acc : List Char), s ∉ xs →
      splitGoAux [s] (xs ++ s :: ys) acc =
        (acc.reverse ++ xs) :: splitGoAux [s] ys [] := by
  intro xs
  induction xs with
  | nil =>
    intro ys acc _
    rw [List.nil_append, splitGoAux, dif_pos]
    · simp
    · simp [List.isPrefixOf]
  | cons x xs2 ih =>
    intro ys acc hmem
    have hne : (s == x) = false := by
      simp only [beq_eq_false_iff_ne, ne_eq]
      intro he
      exact hmem (he ▸ List.mem_cons_self _ _)
    rw [List.cons_append, splitGoAux, dif_neg]
    · rw [ih ys (x :: acc) fun hm => hmem (List.mem_cons_of_mem _ hm)]
      simp
    · simp [List.isPrefixOf, hne]

theorem splitGoAux_dcolon_boundary :
    ∀ (xs ys acc : List Char), ':' ∉ xs →
      splitGoAux [':', ':'] (xs ++ ':' :: ':' :: ys) acc =
        (acc.reverse ++ xs) :: splitGoAux [':', ':'] ys [] := by
  intro xs
  induction xs with
  | nil =>
    intro ys acc _
    rw [List.nil_append, splitGoAux, dif_pos]
    · simp
    · simp [List.isPrefixOf]
  | cons x xs2 ih =>
    intro ys acc hmem
    have hne : ((':' : Char) == x) = false := by
      simp only [beq_eq_false_iff_ne, ne_eq]
      intro he
      exact hmem (he ▸ List.mem_cons_self _ _)
    rw [List.cons_append, splitGoAux, dif_neg]
    · rw [ih ys (x :: acc) fun hm => hmem (List.mem_cons_of_mem _ hm)]
      simp
    · simp [List.isPrefixOf, hne]

theorem goSplit_single (s : Char) (a b c : String)
    (hsa : s ∉ a.data) (hsb : s ∉ b.data) (hsc : s ∉ c.data) :
    goSplit (a ++ String.mk [s] ++ b ++ String.mk [s] ++ c) (String.mk [s]) =
      [a, b, c] := by
  have hdata : (a ++ String.mk [s] ++ b ++ String.mk [s] ++ c).data =
      a.data ++ s :: (b.data ++ s :: c.data) := by
    simp [String.data_append]
  rw [goSplit, hdata]
  rw [show (String.mk [s]).data = [s] from rfl]
  rw [splitGoAux_single_boundary s a.data _ [] hsa]
  rw [splitGoAux_single_boundary s b.data _ [] hsb]
  rw [splitGoAux_no_head s [] c.data [] hsc]
  simp

theorem not_mem_combined (sep x : Char) (a b c : String)
    (hda : ∀ ch ∈ a.data, ch.isDigit = true) (hdb : ∀ ch ∈ b.data, ch.isDigit = true)
    (hdc : ∀ ch ∈ c.data, ch.isDigit = true) (hx : x.isDigit = false) (hxs : x ≠ sep) :
    x ∉ (a ++ String.mk [sep] ++ b ++ String.mk [sep] ++ c).data := by
  have hdata : (a ++ String.mk [sep] ++ b ++ String.mk [sep] ++ c).data =
      a.data ++ sep :: (b.data ++ sep :: c.data) := by
    simp [String.data_append]
  rw [hdata]
  intro hm
  rcases List.mem_append.mp hm with hm | hm
  · exact absurd (hda x hm) (by simp [hx])
  rcases List.mem_cons.mp hm with hm | hm
  · exact hxs hm
  rcases List.mem_append.mp hm with hm | hm
  · exact absurd (hdb x hm) (by simp [hx])
  rcases List.mem_cons.mp hm with hm | hm
  · exact hxs hm
  · exact absurd (hdc x hm) (by simp [hx])

theorem formatTime_normalizes (sep : Char) (hsep : sep = '-' ∨ sep = '/' ∨ sep = '.')
    (a b c : String) (ha : a.data ≠ []) (hb : b.data ≠ []) (hc : c.data ≠ [])
    (hda : ∀ ch ∈ a.data, ch.isDigit = true) (hdb : ∀ ch ∈ b.data, ch.isDigit = true)
    (hdc : ∀ ch ∈ c.data, ch.isDigit = true) (layout : String) :
    formatTime (a ++ String.mk [sep] ++ b ++ String.mk [sep] ++ c) layout =
      .ok (a ++ (if sep = '.' then "-" else String.mk [sep]) ++ pad2 b ++
        (if sep = '.' then "-" else String.mk [sep]) ++ pad2 c) := by
  have hsepd : sep.isDigit = false := by
    rcases hsep with h | h | h <;> subst h <;> rfl
  have hnd : ∀ y : Char, y.isDigit = true → y ≠ sep := by
    intro y hy he
    rw [he, hsepd] at hy
    exact Bool.false_ne_true hy
  have hsa : sep ∉ a.data := fun hm => hnd sep (hda sep hm) rfl
  have hsb : sep ∉ b.data := fun hm => hnd sep (hdb sep hm) rfl
  have hsc : sep ∉ c.data := fun hm => hnd sep (hdc sep hm) rfl
  have hdata : (a ++ String.mk [sep] ++ b ++ String.mk [sep] ++ c).data =
      a.data ++ sep :: (b.data ++ sep :: c.data) := by
    simp [String.data_append]
  have hcontains :
      containsDatePattern sep (a ++ String.mk [sep] ++ b ++ String.mk [sep] ++ c).data =
        true := by
    rw [hdata]
    exact containsDatePattern_of_match _ _
      (matchDatePattern_true sep hsepd a.data b.data c.data ha hb hc hda hdb hdc)
  have hsplit := goSplit_single sep a b c hsa hsb hsc
  rcases hsep with h | h | h <;> subst h
  · rw [formatTime]
    simp only [hcontains, if_true, ite_true]
    rw [hsplit]
  · have hminus : containsDatePattern '-'
        (a ++ String.mk ['/'] ++ b ++ String.mk ['/'] ++ c).data = false :=
      containsDatePattern_eq_false _ _
        (not_mem_combined '/' '-' a b c hda hdb hdc rfl (by decide))
    rw [formatTime]
    simp only [hminus, hcontains, if_true, ite_true, if_false, ite_false,
      Bool.false_eq_true]
    rw [hsplit]
  · have hminus : containsDatePattern '-'
        (a ++ String.mk ['.'] ++ b ++ String.mk ['.'] ++ c).data = false :=
      containsDatePattern_eq_false _ _
        (not_mem_combined '.' '-' a b c hda hdb hdc rfl (by decide))
    have hslash : containsDatePattern '/'
        (a ++ String.mk ['.'] ++ b ++ String.mk ['.'] ++ c).data = false :=
      containsDatePattern_eq_false _ _
        (not_mem_combined '.' '/' a b c hda hdb hdc rfl (by decide))
    rw [formatTime]
    simp only [hminus, hslash, hcontains, if_true, ite_true, if_false, ite_false,
      Bool.false_eq_true]
    rw [hsplit]

theorem splitTVL_no_colon (s : String) (h : ':' ∉ s.data) :
    splitTimeValueLayout s = (s, "") := by
  rw [splitTimeValueLayout, goSplit,
    show ("::" : String).data = [':', ':'] from rfl,
    splitGoAux_no_head ':' [':'] s.data [] h]
  simp

theorem splitTVL_embed (v l : String) (hv : ':' ∉ v.data) (hl : ':' ∉ l.data) :
    splitTimeValueLayout (v ++ "::" ++ l) = (v, l) := by
  have hdata : (v ++ "::" ++ l).data = v.data ++ ':' :: ':' :: l.data := by
    simp [String.data_append]
  rw [splitTimeValueLayout, goSplit,
    show ("::" : String).data = [':', ':'] from rfl, hdata,
    splitGoAux_dcolon_boundary v.data l.data [] hv,
    splitGoAux_no_head ':' [':'] l.data [] hl]
  simp

/-- C7 (amended): `time` coercion accepts a native time value and a Unix
`int` timestamp directly.  For a string whose `"::"`-embedded layout
segment is non-empty, that segment is used as the parse layout in place of
the caller's.  For a separator-free date string `a⟨sep⟩b⟨sep⟩c` with
digit components and `sep ∈ \x7b-,/,.\x7d`, the heuristic zero-pads
one-digit `b`/`c` (rewriting `.` to `-`) and the normalized string is
parsed against the caller-supplied layout.  A string whose embedded layout
segment is empty falls back to the caller layout (see the counterexample);
parse failures and every other source kind yield an error. -/
theorem timeFromInterface_spec (ext : Ext) (layout : String) :
    (∀ t, TimeFromInterface ext (.vtime t) layout = .ok t) ∧
    (∀ n : ℤ, TimeFromInterface ext (.vint n) layout = .ok (.unix n)) ∧
    (∀ v l : String, ':' ∉ v.data → ':' ∉ l.data → l ≠ "" →
        TimeFromInterface ext (.vstring (v ++ "::" ++ l)) layout =
          match ext.parseInLocation l v with
          | some t => .ok t
          | none => .error "Interface could not be converted to Time!") ∧
    (∀ sep : Char, sep = '-' ∨ sep = '/' ∨ sep = '.' →
      ∀ a b c : String, a.data ≠ [] → b.data ≠ [] → c.data ≠ [] →
        (∀ ch ∈ a.data, ch.isDigit = true) → (∀ ch ∈ b.data, ch.isDigit = true) →
        (∀ ch ∈ c.data, ch.isDigit = true) →
        TimeFromInterface ext
            (.vstring (a ++ String.mk [sep] ++ b ++ String.mk [sep] ++ c)) layout =
          match ext.parseInLocation layout
              (a ++ (if sep = '.' then "-" else String.mk [sep]) ++ pad2 b ++
               (if sep = '.' then "-" else String.mk [sep]) ++ pad2 c) with
          | some t => .ok t
          | none => .error "Interface could not be converted to Time!") ∧
    (∀ v : GoValue, (∀ t, v ≠ .vtime t) → (∀ n, v ≠ .vint n) → (∀ s, v ≠ .vstring s) →
        ∃ e, TimeFromInterface ext v layout = .error e) := by
  refine ⟨fun t => rfl, fun n => rfl, ?_, ?_, ?_⟩
  · intro v l hv hl hlne
    have hlen : ¬ (l.length ≤ 0) := by
      have h0 : l.data ≠ [] := by
        intro h0
        exact hlne (by cases l; simp_all)
      have h1 : 0 < l.data.length := List.length_pos.mpr h0
      have h2 : l.length = l.data.length := rfl
      omega
    rw [TimeFromInterface]
    simp only [splitTVL_embed v l hv hl]
    rw [if_neg hlen]
  · intro sep hsep a b c ha hb hc hda hdb hdc
    have hcd : (':' : Char).isDigit = false := rfl
    have hcs : (':' : Char) ≠ sep := by
      rcases hsep with h | h | h <;> subst h <;> decide
    have hcolon := not_mem_combined sep ':' a b c hda hdb hdc hcd hcs
    rw [TimeFromInterface]
    simp only [splitTVL_no_colon _ hcolon]
    rw [if_pos (by simp [String.length])]
    rw [formatTime_normalizes sep hsep a b c ha hb hc hda hdb hdc layout]
  · intro v h1 h2 h3
    cases v
    case vtime t => exact absurd rfl (h1 t)
    case vint n => exact absurd rfl (h2 n)
    case vstring s => exact absurd rfl (h3 s)
    all_goals exact ⟨_, rfl⟩

/-- Oracle for the C7 counterexample and witness: `time.ParseInLocation`
succeeds exactly on layout `"2006-01-02"` with value `"20240102"`. -/
def extC7 : Ext :=
  { extTriv with
    parseInLocation := fun lay v =>
      if lay = "2006-01-02" ∧ v = "20240102" then some (.parsed 7) else none }

/-- C7 counterexample: `"20240102::"` contains the `::` separator and its
part after `::` is the empty layout, yet the code parses with the
caller-supplied layout `"2006-01-02"` (successfully, under an oracle that
rejects the empty layout), so the part after `::` is not always used in
place of the caller's layout. -/
theorem embedded_empty_layout_not_used :
    splitTimeValueLayout "20240102::" = ("20240102", "") ∧
    extC7.parseInLocation "" "20240102" = none ∧
    TimeFromInterface extC7 (.vstring "20240102::") "2006-01-02" = .ok (.parsed 7) := by
  have hs : ("20240102" : String) ++ "::" ++ "" = "20240102::" := rfl
  have h1 : splitTimeValueLayout "20240102::" = ("20240102", "") := by
    rw [← hs]
    exact splitTVL_embed "20240102" "" (by decide) (by decide)
  refine ⟨h1, rfl, ?_⟩
  rw [TimeFromInterface, h1]
  rfl

/-- C7 witness: the non-empty embedded-layout case applied at
`"20240102::2006-01-02"`, where the embedded layout replaces the caller's
(deliberately useless) layout `"x"`. -/
theorem timeFromInterface_spec_witness :
    TimeFromInterface extC7 (.vstring ("20240102" ++ "::" ++ "2006-01-02")) "x" =
      match extC7.parseInLocation "2006-01-02" "20240102" with
      | some t => .ok t
      | none => .error "Interface could not be converted to Time!" :=
  (timeFromInterface_spec extC7 "x").2.2.1 "20240102" "2006-01-02" (by decide) (by decide)
    (by decide)

end Etlx
